import Mathlib

/-!
Shallow embedding of the Serene compiler front-end core (reader / source
manager / namespace model) used to settle the specification claims.

The embedding follows the C++ sources:
  - `source_mgr.cpp`: `SourceMgr::convertNamespaceToPath`,
    `SourceMgr::isValidBufferID`, `SourceMgr::findFileInLoadPath`,
    `SourceMgr::readNamespace`, `SourceMgr::AddNewSourceBuffer`,
    `GetOrCreateOffsetCache`, `SrcBuffer::getPointerForLineNumber`.
  - `namespace.cpp`: `Namespace::ExpandTree`.
  - `ast/ast.h` + `ast.cpp`: the `Expression` variants, `getType`, `classof`,
    and the `Symbol` constructor.
  - `environment.h`: `Environment::lookup`, `Environment::insert_symbol`.
  - `errors.h` / `_errors.h`: `errors::Type`, `errors::Error`,
    `errors::errorMessages`, `errors::Error::log`.

Machine pointers are modelled as byte offsets (`Nat`) from the buffer start,
with `Option Nat` standing for `const char * | nullptr`.  Buffers are lists of
characters.  The file system seen by `findFileInLoadPath` is a function from
full path names to `Option` contents (`none` models a failing read, exactly
the `getError()` branch that is consumed before trying the next root).
-/

set_option linter.unusedVariables false

/-- `CompilationPhase` from `options.h`. -/
inductive CompilationPhase where
  | Parse
  | Analysis
  | SLIR
  | MLIR
  | LIR
  | IR
  | NoOptimization
  | O1
  | O2
  | O3
deriving DecidableEq

/-- `TypeID` constants used by the AST (from `serene/config.h`, as consumed by
`ast.cpp`; the enum itself is generated configuration, its members appear in
`ast.cpp` as distinct enum constants). -/
inductive TypeID where
  | SYMBOL
  | NUMBER
  | LIST
  | STRING
  | KEYWORD
  | NS
deriving DecidableEq

/-- `serene::Location` (`location.h`).  The raw byte pointer `c` of the C++
struct is a machine pointer and is not part of the value model; the remaining
fields are carried verbatim. -/
structure Location where
  ns : String
  filename : Option String
  line : Nat
  col : Nat
  knownLocation : Bool
deriving DecidableEq

/-- `serene::LocationRange` (`location.h`): a start/end pair.  `end` is a Lean
keyword, so the second field is called `endLoc`. -/
structure LocationRange where
  start : Location
  endLoc : Location
deriving DecidableEq

/-- `errors::Type` from `_errors.h` (named `ErrorType` because `Type` is a
Lean keyword). -/
inductive ErrorType where
  | NSLoadError
  | NSAddToSMError
  | InvalidDigitForNumber
  | TwoFloatPoints
  | InvalidCharacterForSymbol
  | EOFWhileScaningAList
  | FINALERROR
deriving DecidableEq

/-- `errors::errorMessages` from `_errors.h`: the per-kind default messages.
The C++ array has `FINALERROR + 1` slots with six initializers, so the
`FINALERROR` slot is value-initialized to the empty string. -/
def errorMessages : ErrorType → String
  | ErrorType.NSLoadError => "Faild to load the namespace"
  | ErrorType.NSAddToSMError => "Faild to add the namespace to the source manager"
  | ErrorType.InvalidDigitForNumber => "Invalid number format"
  | ErrorType.TwoFloatPoints => "Invalid float number format"
  | ErrorType.InvalidCharacterForSymbol => "Invalid symbol format"
  | ErrorType.EOFWhileScaningAList => "Reached the end of the file while scanning for a list"
  | ErrorType.FINALERROR => ""

/-- `errors::Error` (`errors.h`): kind tag, location range and message. -/
structure Error where
  type : ErrorType
  location : LocationRange
  msg : String
deriving DecidableEq

/-- `errors::Error::log(os)` writes `msg` to the stream; the displayed text of
an error value is therefore exactly its `msg` field. -/
def Error.log (e : Error) : String := e.msg

/-- The two-argument `errors::Error` constructor (`Error(Type, LocationRange)`):
the `msg` field is a default-constructed `std::string`, i.e. empty. -/
def Error.mkDefault (t : ErrorType) (loc : LocationRange) : Error :=
  ⟨t, loc, ""⟩

/-- `errors::make(Type, LocationRange, StringRef)` (`errors.cpp`): builds an
`Error` carrying the given override message. -/
def errorsMake (t : ErrorType) (loc : LocationRange) (msg : String) : Error :=
  ⟨t, loc, msg⟩

/-- The AST `Expression` variants from `ast/ast.h` as a closed inductive.
Child ownership (`std::unique_ptr`) becomes plain containment; the `Error`
node's `tag` (a `unique_ptr<Keyword>`) is carried as the keyword's location
and name; the `Namespace` node's semantic environments are not needed by any
claim and are omitted. -/
inductive Expr where
  | symbol (location : LocationRange) (name : String) (nsName : String)
  | number (location : LocationRange) (value : String) (isNeg : Bool) (isFloat : Bool)
  | list (location : LocationRange) (elements : List Expr)
  | str (location : LocationRange) (data : String)
  | keyword (location : LocationRange) (name : String)
  | error (location : LocationRange) (tagLoc : LocationRange) (tagName : String) (msg : String)
  | ns (location : LocationRange) (name : String) (filename : Option String) (tree : List Expr)

/-- The virtual `getType` of each `Expression` subclass, exactly as written in
`ast.cpp`.  Note `Error::getType` returns `TypeID::KEYWORD`. -/
def Expr.getType : Expr → TypeID
  | Expr.symbol _ _ _ => TypeID.SYMBOL
  | Expr.number _ _ _ _ => TypeID.NUMBER
  | Expr.list _ _ => TypeID.LIST
  | Expr.str _ _ => TypeID.STRING
  | Expr.keyword _ _ => TypeID.KEYWORD
  | Expr.error _ _ _ _ => TypeID.KEYWORD
  | Expr.ns _ _ _ _ => TypeID.NS

/-- `ast::Error::classof` (`ast.cpp`): accepts any expression whose type id is
`KEYWORD`. -/
def Error.classof (e : Expr) : Bool :=
  e.getType == TypeID.KEYWORD

/-- `ast::Keyword::classof` (`ast.cpp`). -/
def Keyword.classof (e : Expr) : Bool :=
  e.getType == TypeID.KEYWORD

/-- `llvm::StringRef::find(char)`: index of the first occurrence, `none` for
`npos`. -/
def strFind (c : Char) : List Char → Option Nat
  | [] => none
  | x :: rest => if x = c then some 0 else (strFind c rest).map (· + 1)

/-- The `Symbol::Symbol(loc, name, currentNS)` constructor (`ast.cpp`): split
the lexeme at the first `/` into namespace part and name part; without a `/`
the current namespace is inherited and the whole lexeme is the name.
Strings are handled as character lists, mirroring `StringRef::substr`. -/
def Symbol.construct (loc : LocationRange) (name : List Char) (currentNS : List Char) : Expr :=
  match strFind '/' name with
  | none => Expr.symbol loc (String.mk name) (String.mk currentNS)
  | some i =>
      Expr.symbol loc (String.mk (name.drop (i + 1))) (String.mk (name.take i))

/-- `llvm::StringMap::insert_or_assign`: replace the value of an existing key
in place, otherwise add the binding. -/
def insertOrAssign {V : Type} : List (String × V) → String → V → List (String × V)
  | [], k, v => [(k, v)]
  | (k', v') :: rest, k, v =>
      if k' = k then (k, v) :: rest else (k', v') :: insertOrAssign rest k v

/-- `serene::Environment<V>` (`environment.h`): a local `StringMap` plus an
optional parent.  `root` is the default constructor (`parent = nullptr`),
`child` the one-argument constructor. -/
inductive Environment (V : Type) where
  | root (pairs : List (String × V))
  | child (parent : Environment V) (pairs : List (String × V))

/-- The local bindings of an environment. -/
def Environment.pairs {V : Type} : Environment V → List (String × V)
  | Environment.root ps => ps
  | Environment.child _ ps => ps

/-- `llvm::StringMap<V>::lookup`: the stored value for the key, or a
default-constructed `V` when the key is absent. -/
def stringMapLookup {V : Type} (dflt : V) (ps : List (String × V)) (key : String) : V :=
  (ps.lookup key).getD dflt

/-- `Environment::lookup` (`environment.h`): `if (auto value =
pairs.lookup(key))` tests the truthiness of the looked-up VALUE — a missing
key yields a default-constructed `V`, which is falsy, but so is a stored
falsy value — so a falsy local binding is skipped; then the parent chain is
consulted, and `std::nullopt` is returned at a parentless root.  The
value-to-bool conversion of `V` is the `truthy` parameter and the
default-constructed `V` is `dflt` (for the program's `V = ast::Node` these
are pointer truthiness and the null `unique_ptr`). -/
def Environment.lookup {V : Type} (dflt : V) (truthy : V → Bool) :
    Environment V → String → Option V
  | Environment.root ps, key =>
      let value := stringMapLookup dflt ps key
      if truthy value then some value else none
  | Environment.child parent ps, key =>
      let value := stringMapLookup dflt ps key
      if truthy value then some value
      else Environment.lookup dflt truthy parent key

/-- `Environment::insert_symbol` (`environment.h`): always writes into the
local scope via `insert_or_assign` (and always succeeds). -/
def Environment.insert_symbol {V : Type} : Environment V → String → V → Environment V
  | Environment.root ps, key, value => Environment.root (insertOrAssign ps key value)
  | Environment.child parent ps, key, value =>
      Environment.child parent (insertOrAssign ps key value)

/-- `SourceMgr::SrcBuffer` (`source_mgr.h`, as used by `source_mgr.cpp`): the
owned byte buffer and the import location.  The lazy `offsetCache` pointer is
modelled functionally by `GetOrCreateOffsetCache` below. -/
structure SrcBuffer where
  buffer : List Char
  importLoc : LocationRange

/-- The `SourceMgr` state: registered buffers, the namespace-name index and
the load paths. -/
structure SourceMgr where
  buffers : List SrcBuffer
  nsTable : List (String × Nat)
  loadPaths : List String

/-- `SourceMgr::isValidBufferID` (`source_mgr.cpp`): nonzero and at most the
number of registered buffers. -/
def SourceMgr.isValidBufferID (sm : SourceMgr) (i : Nat) : Bool :=
  i != 0 && i ≤ sm.buffers.length

/-- `SourceMgr::AddNewSourceBuffer` (`source_mgr.cpp`): append a new
`SrcBuffer` holding the moved-in buffer and the include location, and return
the new number of buffers as the id. -/
def SourceMgr.AddNewSourceBuffer (sm : SourceMgr) (f : List Char)
    (includeLoc : LocationRange) : Nat × SourceMgr :=
  let nb : SrcBuffer := ⟨f, includeLoc⟩
  let buffers' := sm.buffers ++ [nb]
  (buffers'.length, ⟨buffers', sm.nsTable, sm.loadPaths⟩)

/-- Run a sequence of `AddNewSourceBuffer` calls, returning the trace of
(returned id, state immediately after the call) pairs. -/
def SourceMgr.runAddCalls (sm : SourceMgr) :
    List (List Char × LocationRange) → List (Nat × SourceMgr)
  | [] => []
  | (f, loc) :: rest =>
      let r := sm.AddNewSourceBuffer f loc
      (r.1, r.2) :: r.2.runAddCalls rest

/-- `SourceMgr::convertNamespaceToPath` (`source_mgr.cpp`): replace every `.`
with `/`, then `llvm::sys::path::native` rewrites the separators to the
platform separator `sep`. -/
def SourceMgr.convertNamespaceToPath (sep : Char) (nsName : List Char) : List Char :=
  (nsName.map fun c => if c = '.' then '/' else c).map
    fun c => if c = '/' then sep else c

/-- The candidate full path probed for a directory root (`source_mgr.cpp`,
`findFileInLoadPath` loop body):
`loadPaths[i] + separator + path + "." + DEFAULT_SUFFIX`. -/
def candidatePath (sep : Char) (suffix : String) (path : List Char) (dir : String) : String :=
  dir ++ String.mk [sep] ++ String.mk path ++ "." ++ suffix

/-- The probing loop of `SourceMgr::findFileInLoadPath`: try each root in
order; a failed read (`getError()`) is consumed and the next root is tried;
the first successful read is returned together with the formed path. -/
def findInPaths (fs : String → Option (List Char)) (sep : Char) (suffix : String)
    (path : List Char) : List String → Option (List Char × String)
  | [] => none
  | dir :: rest =>
      let importedFile := candidatePath sep suffix path dir
      match fs importedFile with
      | some content => some (content, importedFile)
      | none => findInPaths fs sep suffix path rest

/-- `SourceMgr::findFileInLoadPath` (`source_mgr.cpp`): convert the namespace
name to a relative path and probe the load paths in declared order. -/
def SourceMgr.findFileInLoadPath (fs : String → Option (List Char)) (sep : Char)
    (suffix : String) (sm : SourceMgr) (name : List Char) : Option (List Char × String) :=
  findInPaths fs sep suffix (SourceMgr.convertNamespaceToPath sep name) sm.loadPaths

/-- `Namespace::ExpandTree` (`namespace.cpp`): in every phase the forms of
`ast` are moved to the end of `tree` and `ast` is cleared; the `Parse` branch
skips the (currently pass-through) semantic analysis.  Returns
`llvm::Error::success()` (modelled as `none`) in both branches. -/
def ExpandTree (phase : CompilationPhase) (tree : List Expr) (ast : List Expr) :
    List Expr × List Expr × Option Error :=
  if phase = CompilationPhase.Parse then
    (tree ++ ast, [], none)
  else
    (tree ++ ast, [], none)

/-- `SourceMgr::readNamespace` (`source_mgr.cpp`).  The reader (`reader.cpp`
is outside the provided sources) is a parameter mapping the buffer bytes, the
namespace name and the imported file name to an AST or an error.  The steps
follow the source: probe the load path; on miss return `NSLoadError` at
the import location; register the buffer; record the namespace-to-id entry;
dead-check `id == 0`; run the reader, propagating its error; build the
`ast::Namespace` node and `ExpandTree` the parsed forms into it. -/
def SourceMgr.readNamespace (fs : String → Option (List Char)) (sep : Char)
    (suffix : String) (reader : List Char → String → String → Except Error (List Expr))
    (phase : CompilationPhase) (sm : SourceMgr) (name : String)
    (importLoc : LocationRange) : Except Error Expr × SourceMgr :=
  match SourceMgr.findFileInLoadPath fs sep suffix sm name.toList with
  | none =>
      (Except.error
        (errorsMake ErrorType.NSLoadError importLoc
          ("Couldn't find namespace '" ++ name ++ "'")), sm)
  | some (content, importedFile) =>
      let r := sm.AddNewSourceBuffer content importLoc
      let bufferId := r.1
      let sm2 : SourceMgr :=
        ⟨r.2.buffers, insertOrAssign r.2.nsTable name bufferId, r.2.loadPaths⟩
      if bufferId = 0 then
        (Except.error
          (errorsMake ErrorType.NSAddToSMError importLoc
            ("Couldn't add namespace '" ++ name ++ "'")), sm2)
      else
        match reader content name importedFile with
        | Except.error e => (Except.error e, sm2)
        | Except.ok ast =>
            let t := ExpandTree phase [] ast
            match t.2.2 with
            | some e => (Except.error e, sm2)
            | none => (Except.ok (Expr.ns importLoc name (some importedFile) t.1), sm2)

/-- The newline positions recorded by the cache-filling loop of
`GetOrCreateOffsetCache` (`source_mgr.cpp`): every index `n < size` with
`s[n] == '\n'`, in buffer order. -/
def newlineOffsets (s : List Char) : List Nat :=
  (List.range s.length).filter fun n => s.getD n ' ' == '\n'

/-- `GetOrCreateOffsetCache<T>` (`source_mgr.cpp`): the offsets are stored as
the unsigned element type `T` of width `w` bits, i.e. reduced `% 2 ^ w`
(lossless whenever the asserted bound `size ≤ max T` holds). -/
def GetOrCreateOffsetCache (w : Nat) (s : List Char) : List Nat :=
  (newlineOffsets s).map fun n => n % 2 ^ w

/-- `SrcBuffer::getPointerForLineNumberSpecialized<T>` (`source_mgr.cpp`) with
element width `w`.  Pointers are byte offsets from the buffer start; `none`
models the null return. -/
def getPointerForLineNumberSpecialized (w : Nat) (s : List Char) (lineNo : Nat) : Option Nat :=
  let offsets := GetOrCreateOffsetCache w s
  let l := if lineNo ≠ 0 then lineNo - 1 else lineNo
  if l = 0 then
    some 0
  else if l > offsets.length then
    none
  else
    some (offsets.getD (l - 1) 0 + 1)

/-- `SrcBuffer::getPointerForLineNumber` (`source_mgr.cpp`): dispatch on the
buffer size to the 8/16/32/64-bit specialization. -/
def getPointerForLineNumber (s : List Char) (lineNo : Nat) : Option Nat :=
  let sz := s.length
  if sz ≤ 2 ^ 8 - 1 then
    getPointerForLineNumberSpecialized 8 s lineNo
  else if sz ≤ 2 ^ 16 - 1 then
    getPointerForLineNumberSpecialized 16 s lineNo
  else if sz ≤ 2 ^ 32 - 1 then
    getPointerForLineNumberSpecialized 32 s lineNo
  else
    getPointerForLineNumberSpecialized 64 s lineNo

/-! ### Concrete fixtures used by witnesses and counterexamples -/

/-- A concrete known location. -/
def loc0 : Location := ⟨"user", none, 1, 1, true⟩

/-- A concrete point location range. -/
def range0 : LocationRange := ⟨loc0, loc0⟩

/-- An unknown location, as produced by `Location::UnknownLocation`. -/
def unknownLoc0 : Location := ⟨"user", none, 0, 0, false⟩

/-- An unknown location range. -/
def unknownRange0 : LocationRange := ⟨unknownLoc0, unknownLoc0⟩

/-- A file system on which every read fails. -/
def fsEmpty : String → Option (List Char) := fun _ => none

/-- A file system on which every path reads successfully with content `x`. -/
def fsAll : String → Option (List Char) := fun _ => some ['x']

/-- A reader that always succeeds with the empty AST. -/
def readerOk : List Char → String → String → Except Error (List Expr) :=
  fun _ _ _ => Except.ok []

/-- A fixed reader-kind error. -/
def readerErr0 : Error :=
  errorsMake ErrorType.EOFWhileScaningAList range0 "unterminated"

/-- A reader that always fails with `readerErr0`. -/
def readerFail : List Char → String → String → Except Error (List Expr) :=
  fun _ _ _ => Except.error readerErr0

/-- `ast::Node` (`ast.h`): `std::unique_ptr<Expression>`; `none` models the
null pointer, i.e. `EmptyNode`. -/
def Node : Type := Option Expr

/-- A default-constructed `ast::Node` is the null pointer. -/
def nodeDefault : Node := none

/-- `unique_ptr<Expression>::operator bool`: non-null. -/
def nodeTruthy : Node → Bool := fun n => Option.isSome n

/-- A concrete non-null node. -/
def kwNode : Node := some (Expr.keyword range0 "k")

/-! ### Helper lemmas -/

/-- Both branches of `ExpandTree` move the forms of `ast` to the end of
`tree`, clear `ast` and return success. -/
theorem ExpandTree_spec (phase : CompilationPhase) (tree ast : List Expr) :
    ExpandTree phase tree ast = (tree ++ ast, [], none) := by
  unfold ExpandTree
  split <;> rfl

/-- `insert_or_assign` followed by `lookup` of the same key yields the
assigned value. -/
theorem lookup_insertOrAssign {V : Type} (ps : List (String × V)) (k : String) (v : V) :
    (insertOrAssign ps k v).lookup k = some v := by
  induction ps with
  | nil => simp [insertOrAssign]
  | cons p rest ih =>
      obtain ⟨k', v'⟩ := p
      by_cases h : k' = k
      · simp [insertOrAssign, h]
      · simp [insertOrAssign, h, List.lookup_cons, beq_false_of_ne (Ne.symm h), ih]

/-- `StringRef::find` misses exactly on absent characters. -/
theorem strFind_eq_none {c : Char} : ∀ {s : List Char}, c ∉ s → strFind c s = none := by
  intro s
  induction s with
  | nil => intro _; rfl
  | cons x rest ih =>
      intro h
      simp only [List.mem_cons, not_or] at h
      obtain ⟨h1, h2⟩ := h
      simp only [strFind, if_neg (Ne.symm h1), ih h2, Option.map_none']

/-- `StringRef::find` locates the first occurrence. -/
theorem strFind_append {c : Char} : ∀ (pre post : List Char), c ∉ pre →
    strFind c (pre ++ c :: post) = some pre.length := by
  intro pre
  induction pre with
  | nil => intro post _; simp [strFind]
  | cons x rest ih =>
      intro post h
      simp only [List.mem_cons, not_or] at h
      obtain ⟨h1, h2⟩ := h
      simp only [List.cons_append, strFind, if_neg (Ne.symm h1)]
      rw [show rest.append (c :: post) = rest ++ c :: post from rfl, ih post h2]
      simp

/-- Taking the prefix length of an append-with-separator returns the prefix. -/
theorem take_append_cons (pre post : List Char) (c : Char) :
    (pre ++ c :: post).take pre.length = pre := by
  simp

/-- Dropping past the separator of an append-with-separator returns the rest. -/
theorem drop_append_cons (pre post : List Char) (c : Char) :
    (pre ++ c :: post).drop (pre.length + 1) = post := by
  have h1 : pre ++ c :: post = (pre ++ [c]) ++ post := by simp
  have h2 : pre.length + 1 = (pre ++ [c]).length := by simp
  rw [h1, h2, List.drop_left]

/-- Reading back the key just written with `insert_or_assign` through the
`StringMap::lookup` model yields the written value. -/
theorem stringMapLookup_insertOrAssign {V : Type} (dflt : V)
    (ps : List (String × V)) (k : String) (v : V) :
    stringMapLookup dflt (insertOrAssign ps k v) k = v := by
  unfold stringMapLookup
  rw [lookup_insertOrAssign]
  rfl

/-- Inserting a truthy value and then looking up the same key in any
environment yields the inserted value. -/
theorem env_lookup_insert {V : Type} (dflt : V) (truthy : V → Bool)
    (e : Environment V) (k : String) (v : V) (hv : truthy v = true) :
    (e.insert_symbol k v).lookup dflt truthy k = some v := by
  cases e with
  | root ps =>
      simp [Environment.insert_symbol, Environment.lookup,
        stringMapLookup_insertOrAssign, hv]
  | child parent ps =>
      simp [Environment.insert_symbol, Environment.lookup,
        stringMapLookup_insertOrAssign, hv]

/-! ### Claim theorems -/

/-- C4: for every compilation phase, `ExpandTree` appends the forms of the
given ast, in order, to the end of the namespace's tree (leaving the
previously accumulated prefix unchanged), leaves the given ast empty
afterwards, and returns success; in particular the `Parse` phase appends the
forms verbatim with no semantic analysis. -/
theorem C4_ExpandTree_appends :
    ∀ (phase : CompilationPhase) (tree ast : List Expr),
      (ExpandTree phase tree ast).1 = tree ++ ast ∧
      (ExpandTree phase tree ast).1.take tree.length = tree ∧
      (ExpandTree phase tree ast).1.drop tree.length = ast ∧
      (ExpandTree phase tree ast).2.1 = [] ∧
      (ExpandTree phase tree ast).2.2 = none := by
  intro phase tree ast
  rw [ExpandTree_spec]
  refine ⟨rfl, ?_, ?_, rfl, rfl⟩
  · exact List.take_left tree ast
  · exact List.drop_left tree ast

/-- C5: constructing a `Symbol` splits the lexeme at its first `/`: for the
lexeme `a/b` the namespace part is `a` and the name part is `b`; a lexeme
without `/` inherits the current namespace and keeps the whole lexeme as the
name; in general a lexeme `pre ++ / :: post` whose prefix has no `/` splits
into namespace `pre` and name `post`. -/
theorem C5_symbol_namespace_split :
    (∀ (loc : LocationRange) (currentNS : List Char),
        Symbol.construct loc "a/b".toList currentNS = Expr.symbol loc "b" "a") ∧
    (∀ (loc : LocationRange) (lexeme currentNS : List Char), '/' ∉ lexeme →
        Symbol.construct loc lexeme currentNS =
          Expr.symbol loc (String.mk lexeme) (String.mk currentNS)) ∧
    (∀ (loc : LocationRange) (pre post currentNS : List Char), '/' ∉ pre →
        Symbol.construct loc (pre ++ '/' :: post) currentNS =
          Expr.symbol loc (String.mk post) (String.mk pre)) := by
  refine ⟨?_, ?_, ?_⟩
  · intro loc currentNS
    rfl
  · intro loc lexeme currentNS h
    simp [Symbol.construct, strFind_eq_none h]
  · intro loc pre post currentNS h
    simp [Symbol.construct, strFind_append pre post h, take_append_cons, drop_append_cons]

/-- Witness for C5 at a concrete slash-free lexeme in namespace `a`. -/
theorem C5_symbol_namespace_split_witness :
    Symbol.construct range0 "b".toList "a".toList = Expr.symbol range0 "b" "a" :=
  C5_symbol_namespace_split.2.1 range0 "b".toList "a".toList (by decide)

/-- C6 counterexample: lookup tests the value's truthiness
(`environment.h:47`), not key presence, so with the program's own value type
(`ast::Node`) a falsy local binding is skipped: after inserting the non-null
`kwNode` for `x` in the parent and the null `EmptyNode` for `x` in the child,
the child's lookup yields the parent's binding, not the child's, refuting the
claimed shadowing for arbitrary values. -/
theorem C6_environment_shadowing_counterexample :
    ((Environment.child
        ((Environment.root ([] : List (String × Node))).insert_symbol "x" kwNode)
        []).insert_symbol "x" nodeDefault).lookup nodeDefault nodeTruthy "x" =
      some kwNode ∧
    (some kwNode : Option Node) ≠ some nodeDefault := by
  constructor
  · rfl
  · simp [kwNode, nodeDefault]

/-- C6 (amended): `insert_symbol` always writes into the local scope and the
last write within a scope wins; `lookup` returns the local binding when the
local value is truthy and otherwise walks the parent chain (`environment.h`
tests the value's truthiness, so a falsy local binding — e.g. a null
`ast::Node` — is skipped in favour of the parent); consequently the claimed
parent/child shadowing holds whenever the two inserted values are truthy:
after `insert("x", v1)` in the parent and `insert("x", v2)` in the child,
`child.lookup("x") = v2` and `parent.lookup("x") = v1`. -/
theorem C6_environment_shadowing_amended :
    (∀ (V : Type) (dflt : V) (truthy : V → Bool) (p : Environment V) (v1 v2 : V),
        truthy v1 = true → truthy v2 = true →
        ((Environment.child (p.insert_symbol "x" v1) []).insert_symbol "x" v2).lookup
            dflt truthy "x" = some v2 ∧
        (p.insert_symbol "x" v1).lookup dflt truthy "x" = some v1) ∧
    (∀ (V : Type) (dflt : V) (truthy : V → Bool) (e : Environment V) (k : String) (v : V),
        truthy v = true →
        (e.insert_symbol k v).lookup dflt truthy k = some v) ∧
    (∀ (V : Type) (dflt : V) (truthy : V → Bool) (parent : Environment V)
        (ps : List (String × V)) (k : String),
        truthy (stringMapLookup dflt ps k) = true →
          (Environment.child parent ps).lookup dflt truthy k =
            some (stringMapLookup dflt ps k)) ∧
    (∀ (V : Type) (dflt : V) (truthy : V → Bool) (parent : Environment V)
        (ps : List (String × V)) (k : String),
        truthy (stringMapLookup dflt ps k) = false →
          (Environment.child parent ps).lookup dflt truthy k =
            parent.lookup dflt truthy k) ∧
    (∀ (V : Type) (parent : Environment V) (ps : List (String × V)) (k : String) (v : V),
        (Environment.child parent ps).insert_symbol k v =
          Environment.child parent (insertOrAssign ps k v)) := by
  refine ⟨?_, ?_, ?_, ?_, ?_⟩
  · intro V dflt truthy p v1 v2 h1 h2
    exact ⟨env_lookup_insert dflt truthy
        (Environment.child (p.insert_symbol "x" v1) []) "x" v2 h2,
      env_lookup_insert dflt truthy p "x" v1 h1⟩
  · intro V dflt truthy e k v hv
    exact env_lookup_insert dflt truthy e k v hv
  · intro V dflt truthy parent ps k h
    simp [Environment.lookup, h]
  · intro V dflt truthy parent ps k h
    simp [Environment.lookup, h]
  · intro V parent ps k v
    rfl

/-- Witness for the amended C6 at the program's node type: non-null bindings
shadow exactly as claimed. -/
theorem C6_environment_shadowing_amended_witness :
    ((Environment.child
        ((Environment.root ([] : List (String × Node))).insert_symbol "x" kwNode)
        []).insert_symbol "x" (some (Expr.keyword range0 "b"))).lookup
        nodeDefault nodeTruthy "x" = some (some (Expr.keyword range0 "b")) ∧
    ((Environment.root ([] : List (String × Node))).insert_symbol "x" kwNode).lookup
        nodeDefault nodeTruthy "x" = some kwNode :=
  C6_environment_shadowing_amended.1 Node nodeDefault nodeTruthy
    (Environment.root []) kwNode (some (Expr.keyword range0 "b")) rfl rfl

/-- C8 counterexample: an error constructed without an override message does
NOT display the default message associated with its kind — it displays the
empty string, because `Error::log` writes only `msg` and never consults
`errorMessages`. -/
theorem C8_default_message_not_displayed :
    Error.log (Error.mkDefault ErrorType.NSLoadError unknownRange0) = "" ∧
    Error.log (Error.mkDefault ErrorType.NSLoadError unknownRange0) ≠
      errorMessages ErrorType.NSLoadError := by
  refine ⟨rfl, ?_⟩
  decide

/-- C8 (amended): at display time an error shows exactly its `msg` field: an
error constructed with an override message displays that message, and an
error constructed without one displays the empty string; the per-kind default
messages in `errorMessages` are never consulted by `Error::log`. -/
theorem C8_override_message_display :
    (∀ (t : ErrorType) (loc : LocationRange) (msg : String),
        Error.log (errorsMake t loc msg) = msg) ∧
    (∀ (t : ErrorType) (loc : LocationRange),
        Error.log (Error.mkDefault t loc) = "") :=
  ⟨fun _ _ _ => rfl, fun _ _ => rfl⟩

/-- C10: `Error::getType` returns the `KEYWORD` type id and `Error::classof`
accepts any expression whose type id is `KEYWORD`; consequently runtime type
discrimination cannot distinguish an `Error` node from a `Keyword` node:
`Error::classof` and `Keyword::classof` agree on every expression, each
accepts the other's nodes. -/
theorem C10_error_keyword_indistinguishable :
    (∀ (loc tagLoc : LocationRange) (tagName msg : String),
        (Expr.error loc tagLoc tagName msg).getType = TypeID.KEYWORD) ∧
    (∀ e : Expr, Error.classof e = true ↔ e.getType = TypeID.KEYWORD) ∧
    (∀ e : Expr, Error.classof e = Keyword.classof e) ∧
    (∀ (loc : LocationRange) (name : String),
        Error.classof (Expr.keyword loc name) = true) ∧
    (∀ (loc tagLoc : LocationRange) (tagName msg : String),
        Keyword.classof (Expr.error loc tagLoc tagName msg) = true) := by
  refine ⟨fun _ _ _ _ => rfl, ?_, fun e => rfl, fun _ _ => rfl, fun _ _ _ _ => rfl⟩
  intro e
  simp [Error.classof]

/-- Every id returned along a call trace exceeds the initial buffer count and
equals the buffer count immediately after its call. -/
theorem runAddCalls_invariant (calls : List (List Char × LocationRange)) :
    ∀ (sm : SourceMgr) (p : Nat × SourceMgr), p ∈ sm.runAddCalls calls →
      sm.buffers.length < p.1 ∧ p.1 = p.2.buffers.length := by
  induction calls with
  | nil =>
      intro sm p hp
      simp [SourceMgr.runAddCalls] at hp
  | cons c rest ih =>
      intro sm p hp
      obtain ⟨f, loc⟩ := c
      simp only [SourceMgr.runAddCalls] at hp
      rcases List.mem_cons.mp hp with h | h
      · subst h
        constructor
        · simp [SourceMgr.AddNewSourceBuffer]
        · simp [SourceMgr.AddNewSourceBuffer]
      · have h2 := ih _ p h
        have hlen : (sm.AddNewSourceBuffer f loc).2.buffers.length =
            sm.buffers.length + 1 := by
          simp [SourceMgr.AddNewSourceBuffer]
        refine ⟨?_, h2.2⟩
        rw [hlen] at h2
        omega

/-- The ids returned along a call trace strictly increase. -/
theorem runAddCalls_pairwise (calls : List (List Char × LocationRange)) :
    ∀ (sm : SourceMgr), (sm.runAddCalls calls).Pairwise (fun a b => a.1 < b.1) := by
  induction calls with
  | nil =>
      intro sm
      simp [SourceMgr.runAddCalls]
  | cons c rest ih =>
      intro sm
      obtain ⟨f, loc⟩ := c
      simp only [SourceMgr.runAddCalls]
      refine List.Pairwise.cons ?_ (ih _)
      intro b hb
      have h := runAddCalls_invariant rest _ b hb
      simp only [SourceMgr.AddNewSourceBuffer, List.length_append,
        List.length_cons, List.length_nil] at h ⊢
      omega

/-- C3: across any sequence of `AddNewSourceBuffer` calls the returned ids
strictly increase and never equal zero, and immediately after each call the
returned id is a valid buffer id (`1 ≤ id ≤ number of registered buffers`). -/
theorem C3_addBuffer_ids_monotone :
    ∀ (sm : SourceMgr) (calls : List (List Char × LocationRange)),
      (sm.runAddCalls calls).Pairwise (fun a b => a.1 < b.1) ∧
      (∀ p ∈ sm.runAddCalls calls, p.1 ≠ 0 ∧ p.2.isValidBufferID p.1 = true) := by
  intro sm calls
  refine ⟨runAddCalls_pairwise calls sm, ?_⟩
  intro p hp
  obtain ⟨h1, h2⟩ := runAddCalls_invariant calls sm p hp
  refine ⟨by omega, ?_⟩
  simp only [SourceMgr.isValidBufferID, Bool.and_eq_true, bne_iff_ne, ne_eq,
    decide_eq_true_eq]
  omega

/-- Witness for C3: the first call on an empty source manager returns id 1,
which is nonzero and valid in the resulting state. -/
theorem C3_addBuffer_ids_monotone_witness :
    (1 : Nat) ≠ 0 ∧
    SourceMgr.isValidBufferID ⟨[⟨['a'], range0⟩], [], []⟩ 1 = true :=
  (C3_addBuffer_ids_monotone ⟨[], [], []⟩ [(['a'], range0)]).2
    (1, ⟨[⟨['a'], range0⟩], [], []⟩) (List.Mem.head _)

/-- The probing loop misses exactly when every root's candidate fails to
read. -/
theorem findInPaths_none_iff (fs : String → Option (List Char)) (sep : Char)
    (suffix : String) (path : List Char) :
    ∀ (ps : List String), findInPaths fs sep suffix path ps = none ↔
      ∀ d ∈ ps, fs (candidatePath sep suffix path d) = none := by
  intro ps
  induction ps with
  | nil => simp [findInPaths]
  | cons dir rest ih =>
      cases h : fs (candidatePath sep suffix path dir) with
      | some content => simp [findInPaths, h]
      | none => simp [findInPaths, h, ih]

/-- The probing loop returns `some (c, f)` exactly when the load-path list
decomposes as failing roots, then the first succeeding root whose candidate
path is `f` with content `c`. -/
theorem findInPaths_some_iff (fs : String → Option (List Char)) (sep : Char)
    (suffix : String) (path : List Char) (c : List Char) (f : String) :
    ∀ (ps : List String), findInPaths fs sep suffix path ps = some (c, f) ↔
      ∃ pre dir post, ps = pre ++ dir :: post ∧
        (∀ d ∈ pre, fs (candidatePath sep suffix path d) = none) ∧
        f = candidatePath sep suffix path dir ∧
        fs f = some c := by
  intro ps
  induction ps with
  | nil =>
      constructor
      · intro h
        simp [findInPaths] at h
      · rintro ⟨pre, dir, post, hps, -, -, -⟩
        exact absurd hps.symm (by simp)
  | cons dir0 rest ih =>
      cases h : fs (candidatePath sep suffix path dir0) with
      | some content =>
          simp only [findInPaths, h, Option.some.injEq, Prod.mk.injEq]
          constructor
          · rintro ⟨hc, hf⟩
            refine ⟨[], dir0, rest, rfl, by simp, hf.symm, ?_⟩
            rw [← hf, h, hc]
          · rintro ⟨pre, dir, post, hps, hpre, hf, hfs⟩
            cases pre with
            | nil =>
                simp only [List.nil_append, List.cons.injEq] at hps
                obtain ⟨hd, -⟩ := hps
                subst hd
                rw [hf] at hfs
                rw [h] at hfs
                exact ⟨(Option.some.injEq _ _).mp hfs, hf.symm⟩
            | cons p pre' =>
                simp only [List.cons_append, List.cons.injEq] at hps
                obtain ⟨hd, -⟩ := hps
                subst hd
                have := hpre dir0 (List.mem_cons_self dir0 pre')
                rw [this] at h
                exact absurd h (by simp)
      | none =>
          simp only [findInPaths, h]
          rw [ih]
          constructor
          · rintro ⟨pre, dir, post, hps, hpre, hf, hfs⟩
            refine ⟨dir0 :: pre, dir, post, by rw [List.cons_append, hps], ?_, hf, hfs⟩
            intro d hd
            rcases List.mem_cons.mp hd with hd | hd
            · rw [hd]; exact h
            · exact hpre d hd
          · rintro ⟨pre, dir, post, hps, hpre, hf, hfs⟩
            cases pre with
            | nil =>
                simp only [List.nil_append, List.cons.injEq] at hps
                obtain ⟨hd, -⟩ := hps
                subst hd
                rw [hf] at hfs
                rw [h] at hfs
                exact absurd hfs (by simp)
            | cons p pre' =>
                simp only [List.cons_append, List.cons.injEq] at hps
                obtain ⟨hd, hrest⟩ := hps
                subst hd
                refine ⟨pre', dir, post, hrest, ?_, hf, hfs⟩
                intro d hd
                exact hpre d (List.mem_cons_of_mem dir0 hd)

/-- C2: `findFileInLoadPath` probes the directories in declared order with
candidate `dir + sep + (name with dots turned into separators) + "." +
DEFAULT_SUFFIX`, returns content and full path of the first successful read
(failed reads are consumed and the search continues), and returns `none`
exactly when every probe fails. -/
theorem C2_findFileInLoadPath_first_hit :
    ∀ (fs : String → Option (List Char)) (sep : Char) (suffix : String)
      (sm : SourceMgr) (name : List Char) (c : List Char) (f : String),
      (SourceMgr.findFileInLoadPath fs sep suffix sm name = some (c, f) ↔
        ∃ pre dir post, sm.loadPaths = pre ++ dir :: post ∧
          (∀ d ∈ pre,
            fs (candidatePath sep suffix
              (SourceMgr.convertNamespaceToPath sep name) d) = none) ∧
          f = candidatePath sep suffix
            (SourceMgr.convertNamespaceToPath sep name) dir ∧
          fs f = some c) ∧
      (SourceMgr.findFileInLoadPath fs sep suffix sm name = none ↔
        ∀ d ∈ sm.loadPaths,
          fs (candidatePath sep suffix
            (SourceMgr.convertNamespaceToPath sep name) d) = none) ∧
      ('/' ∉ name →
        SourceMgr.convertNamespaceToPath sep name =
          name.map fun ch => if ch = '.' then sep else ch) := by
  intro fs sep suffix sm name c f
  refine ⟨findInPaths_some_iff fs sep suffix _ c f sm.loadPaths,
          findInPaths_none_iff fs sep suffix _ sm.loadPaths, ?_⟩
  intro hname
  unfold SourceMgr.convertNamespaceToPath
  rw [List.map_map]
  apply List.map_congr_left
  intro ch hch
  by_cases hdot : ch = '.'
  · simp [hdot]
  · have hslash : ch ≠ '/' := fun hh => hname (hh ▸ hch)
    simp [Function.comp, hdot, hslash]

/-- Witness for C2: the dot-to-separator conversion at the concrete
namespace name `a.b`. -/
theorem C2_findFileInLoadPath_first_hit_witness :
    SourceMgr.convertNamespaceToPath '/' "a.b".toList =
      "a.b".toList.map (fun ch => if ch = '.' then '/' else ch) :=
  (C2_findFileInLoadPath_first_hit fsEmpty '/' "srn" ⟨[], [], []⟩ "a.b".toList []
    "").2.2 (by decide)

/-- On a load-path miss, `readNamespace` returns `NSLoadError` at the import
location and leaves the source manager untouched. -/
theorem readNamespace_miss (fs : String → Option (List Char)) (sep : Char)
    (suffix : String) (reader : List Char → String → String → Except Error (List Expr))
    (phase : CompilationPhase) (sm : SourceMgr) (name : String)
    (importLoc : LocationRange)
    (hfind : SourceMgr.findFileInLoadPath fs sep suffix sm name.toList = none) :
    SourceMgr.readNamespace fs sep suffix reader phase sm name importLoc =
      (Except.error (errorsMake ErrorType.NSLoadError importLoc
        ("Couldn't find namespace '" ++ name ++ "'")), sm) := by
  unfold SourceMgr.readNamespace
  rw [hfind]

/-- On a load-path hit, `readNamespace` registers the buffer, records the
namespace in the index, and then either propagates the reader error or
returns the namespace node with the expanded tree. -/
theorem readNamespace_hit (fs : String → Option (List Char)) (sep : Char)
    (suffix : String) (reader : List Char → String → String → Except Error (List Expr))
    (phase : CompilationPhase) (sm : SourceMgr) (name : String)
    (importLoc : LocationRange) (content : List Char) (importedFile : String)
    (hfind : SourceMgr.findFileInLoadPath fs sep suffix sm name.toList =
      some (content, importedFile)) :
    SourceMgr.readNamespace fs sep suffix reader phase sm name importLoc =
      ((match reader content name importedFile with
        | Except.error e => Except.error e
        | Except.ok ast => Except.ok (Expr.ns importLoc name (some importedFile) ast)),
       ⟨sm.buffers ++ [⟨content, importLoc⟩],
        insertOrAssign sm.nsTable name (sm.buffers.length + 1),
        sm.loadPaths⟩) := by
  unfold SourceMgr.readNamespace
  rw [hfind]
  cases hr : reader content name importedFile with
  | error e => simp [SourceMgr.AddNewSourceBuffer, hr]
  | ok ast => simp [SourceMgr.AddNewSourceBuffer, hr, ExpandTree_spec]

/-- C7: provided the reader only produces reader-kind errors (never
`NSLoadError`, per the error taxonomy), `readNamespace` returns an error of
kind `NSLoadError` located at the import location exactly when no load-path
probe finds a file; in that miss case the source-manager state (buffers and
namespace index) is unchanged. -/
theorem C7_readNamespace_NSLoadError_iff_miss :
    ∀ (fs : String → Option (List Char)) (sep : Char) (suffix : String)
      (reader : List Char → String → String → Except Error (List Expr))
      (phase : CompilationPhase) (sm : SourceMgr) (name : String)
      (importLoc : LocationRange),
      (∀ content n fl e, reader content n fl = Except.error e →
          e.type ≠ ErrorType.NSLoadError) →
      ((∃ e, (SourceMgr.readNamespace fs sep suffix reader phase sm name importLoc).1 =
            Except.error e ∧ e.type = ErrorType.NSLoadError ∧ e.location = importLoc) ↔
        SourceMgr.findFileInLoadPath fs sep suffix sm name.toList = none) ∧
      (SourceMgr.findFileInLoadPath fs sep suffix sm name.toList = none →
        (SourceMgr.readNamespace fs sep suffix reader phase sm name importLoc).2 = sm) := by
  intro fs sep suffix reader phase sm name importLoc hreader
  cases hfind : SourceMgr.findFileInLoadPath fs sep suffix sm name.toList with
  | none =>
      constructor
      · constructor
        · intro _
          rfl
        · intro _
          refine ⟨errorsMake ErrorType.NSLoadError importLoc
            ("Couldn't find namespace '" ++ name ++ "'"), ?_, rfl, rfl⟩
          rw [readNamespace_miss fs sep suffix reader phase sm name importLoc hfind]
      · intro _
        rw [readNamespace_miss fs sep suffix reader phase sm name importLoc hfind]
  | some cf =>
      obtain ⟨content, importedFile⟩ := cf
      constructor
      · constructor
        · rintro ⟨e, he, htype, hloc⟩
          exfalso
          rw [readNamespace_hit fs sep suffix reader phase sm name importLoc
            content importedFile hfind] at he
          cases hr : reader content name importedFile with
          | error e2 =>
              rw [hr] at he
              simp only [Except.error.injEq] at he
              exact hreader content name importedFile e2 hr (he ▸ htype)
          | ok ast =>
              rw [hr] at he
              exact Except.noConfusion he
        · intro hcontra
          exact Option.noConfusion hcontra
      · intro hcontra
        exact Option.noConfusion hcontra

/-- Witness for C7: with an empty load path the probe misses, the returned
error is `NSLoadError` at the import location and the state is unchanged. -/
theorem C7_readNamespace_NSLoadError_iff_miss_witness :
    ((∃ e, (SourceMgr.readNamespace fsEmpty '/' "srn" readerOk CompilationPhase.Parse
          ⟨[], [], []⟩ "core.x" range0).1 = Except.error e ∧
          e.type = ErrorType.NSLoadError ∧ e.location = range0) ↔
      SourceMgr.findFileInLoadPath fsEmpty '/' "srn" ⟨[], [], []⟩ "core.x".toList = none) ∧
    (SourceMgr.findFileInLoadPath fsEmpty '/' "srn" ⟨[], [], []⟩ "core.x".toList = none →
      (SourceMgr.readNamespace fsEmpty '/' "srn" readerOk CompilationPhase.Parse
        ⟨[], [], []⟩ "core.x" range0).2 = ⟨[], [], []⟩) :=
  C7_readNamespace_NSLoadError_iff_miss fsEmpty '/' "srn" readerOk
    CompilationPhase.Parse ⟨[], [], []⟩ "core.x" range0
    (fun _ _ _ _ h => Except.noConfusion h)

/-- C9: if the reader fails while `readNamespace` processes a namespace, the
reader error is propagated but the freshly registered buffer remains in the
source manager and the namespace index maps the name to the fresh buffer id:
registration is not rolled back. -/
theorem C9_readNamespace_no_rollback :
    ∀ (fs : String → Option (List Char)) (sep : Char) (suffix : String)
      (reader : List Char → String → String → Except Error (List Expr))
      (phase : CompilationPhase) (sm : SourceMgr) (name : String)
      (importLoc : LocationRange) (content : List Char) (importedFile : String)
      (e : Error),
      SourceMgr.findFileInLoadPath fs sep suffix sm name.toList =
        some (content, importedFile) →
      reader content name importedFile = Except.error e →
      (SourceMgr.readNamespace fs sep suffix reader phase sm name importLoc).1 =
        Except.error e ∧
      (SourceMgr.readNamespace fs sep suffix reader phase sm name importLoc).2.buffers =
        sm.buffers ++ [⟨content, importLoc⟩] ∧
      ((SourceMgr.readNamespace fs sep suffix reader phase sm name
        importLoc).2.nsTable).lookup name = some (sm.buffers.length + 1) := by
  intro fs sep suffix reader phase sm name importLoc content importedFile e hfind hr
  rw [readNamespace_hit fs sep suffix reader phase sm name importLoc
    content importedFile hfind]
  refine ⟨?_, rfl, ?_⟩
  · rw [hr]
  · exact lookup_insertOrAssign sm.nsTable name (sm.buffers.length + 1)

/-- Witness for C9: a failing reader on a successfully probed namespace file
leaves the buffer registered and the index pointing at id 1. -/
theorem C9_readNamespace_no_rollback_witness :
    (SourceMgr.readNamespace fsAll '/' "srn" readerFail CompilationPhase.Parse
      ⟨[], [], ["p"]⟩ "x" range0).1 = Except.error readerErr0 ∧
    (SourceMgr.readNamespace fsAll '/' "srn" readerFail CompilationPhase.Parse
      ⟨[], [], ["p"]⟩ "x" range0).2.buffers = [⟨['x'], range0⟩] ∧
    ((SourceMgr.readNamespace fsAll '/' "srn" readerFail CompilationPhase.Parse
      ⟨[], [], ["p"]⟩ "x" range0).2.nsTable).lookup "x" = some 1 :=
  C9_readNamespace_no_rollback fsAll '/' "srn" readerFail CompilationPhase.Parse
    ⟨[], [], ["p"]⟩ "x" range0 ['x']
    (candidatePath '/' "srn" (SourceMgr.convertNamespaceToPath '/' "x".toList) "p")
    readerErr0 rfl rfl

/-- Every cached newline offset is a valid index into the buffer. -/
theorem newlineOffsets_lt (s : List Char) : ∀ n ∈ newlineOffsets s, n < s.length := by
  intro n hn
  have h := List.mem_filter.mp hn
  exact List.mem_range.mp h.1

/-- Reducing each element of a list of small naturals modulo `2 ^ w` is the
identity. -/
theorem map_mod_eq_self (w : Nat) :
    ∀ (l : List Nat), (∀ n ∈ l, n < 2 ^ w) → (l.map fun n => n % 2 ^ w) = l := by
  intro l
  induction l with
  | nil => intro _; rfl
  | cons a t ih =>
      intro h
      simp only [List.map_cons]
      rw [Nat.mod_eq_of_lt (h a (List.mem_cons_self a t)),
        ih fun n hn => h n (List.mem_cons_of_mem a hn)]

/-- Under the asserted size bound (`sz <= max T`) the size-specialized cache
stores the exact newline offsets: the narrowing cast is lossless. -/
theorem GetOrCreateOffsetCache_eq (w : Nat) (s : List Char)
    (h : s.length ≤ 2 ^ w - 1) :
    GetOrCreateOffsetCache w s = newlineOffsets s := by
  unfold GetOrCreateOffsetCache
  apply map_mod_eq_self
  intro n hn
  have h1 := newlineOffsets_lt s n hn
  have h2 : 1 ≤ 2 ^ w := Nat.one_le_two_pow
  omega

/-- Any two admissible element widths compute the same line pointer. -/
theorem specialized_width_irrelevant (w w2 : Nat) (s : List Char)
    (h : s.length ≤ 2 ^ w - 1) (h2 : s.length ≤ 2 ^ w2 - 1) (lineNo : Nat) :
    getPointerForLineNumberSpecialized w s lineNo =
      getPointerForLineNumberSpecialized w2 s lineNo := by
  unfold getPointerForLineNumberSpecialized
  rw [GetOrCreateOffsetCache_eq w s h, GetOrCreateOffsetCache_eq w2 s h2]

/-- Under the 64-bit size bound the size dispatch is equivalent to the 64-bit
specialization. -/
theorem getPointerForLineNumber_eq_spec64 (s : List Char)
    (h : s.length ≤ 2 ^ 64 - 1) (lineNo : Nat) :
    getPointerForLineNumber s lineNo =
      getPointerForLineNumberSpecialized 64 s lineNo := by
  simp only [getPointerForLineNumber]
  by_cases h8 : s.length ≤ 2 ^ 8 - 1
  · rw [if_pos h8]
    exact specialized_width_irrelevant 8 64 s h8 h lineNo
  · rw [if_neg h8]
    by_cases h16 : s.length ≤ 2 ^ 16 - 1
    · rw [if_pos h16]
      exact specialized_width_irrelevant 16 64 s h16 h lineNo
    · rw [if_neg h16]
      by_cases h32 : s.length ≤ 2 ^ 32 - 1
      · rw [if_pos h32]
        exact specialized_width_irrelevant 32 64 s h32 h lineNo
      · rw [if_neg h32]

/-- C1: for every source buffer (of machine-representable size) and line
number `L`, `getPointerForLineNumber` returns the buffer start for `L = 0` or
`L = 1`, the byte one past the `(L-1)`-th newline for
`2 ≤ L ≤ newline-count + 1`, and null when `L - 1` exceeds the newline count;
the offset cache holds exactly the byte offset of every newline in buffer
order, and every size-admissible element width computes the same result as
the size dispatch. -/
theorem C1_getPointerForLineNumber_correct :
    ∀ (s : List Char), s.length ≤ 2 ^ 64 - 1 →
      (getPointerForLineNumber s 0 = some 0 ∧ getPointerForLineNumber s 1 = some 0) ∧
      (∀ L, 2 ≤ L → L ≤ (newlineOffsets s).length + 1 →
          getPointerForLineNumber s L = some ((newlineOffsets s).getD (L - 2) 0 + 1)) ∧
      (∀ L, (newlineOffsets s).length + 1 < L → getPointerForLineNumber s L = none) ∧
      (∀ n, n ∈ newlineOffsets s ↔ n < s.length ∧ s.getD n ' ' = '\n') ∧
      (newlineOffsets s).Pairwise (· < ·) ∧
      (∀ w, s.length ≤ 2 ^ w - 1 →
          GetOrCreateOffsetCache w s = newlineOffsets s ∧
          ∀ L, getPointerForLineNumberSpecialized w s L = getPointerForLineNumber s L) := by
  intro s h
  refine ⟨⟨?_, ?_⟩, ?_, ?_, ?_, ?_, ?_⟩
  · rw [getPointerForLineNumber_eq_spec64 s h 0]
    simp [getPointerForLineNumberSpecialized]
  · rw [getPointerForLineNumber_eq_spec64 s h 1]
    simp [getPointerForLineNumberSpecialized]
  · intro L h2 h3
    rw [getPointerForLineNumber_eq_spec64 s h L]
    simp only [getPointerForLineNumberSpecialized, GetOrCreateOffsetCache_eq 64 s h]
    rw [if_pos (show L ≠ 0 by omega), if_neg (show ¬(L - 1 = 0) by omega),
      if_neg (show ¬(L - 1 > (newlineOffsets s).length) by omega),
      show L - 1 - 1 = L - 2 from by omega]
  · intro L hL
    rw [getPointerForLineNumber_eq_spec64 s h L]
    simp only [getPointerForLineNumberSpecialized, GetOrCreateOffsetCache_eq 64 s h]
    rw [if_pos (show L ≠ 0 by omega), if_neg (show ¬(L - 1 = 0) by omega),
      if_pos (show L - 1 > (newlineOffsets s).length by omega)]
  · intro n
    simp [newlineOffsets, List.mem_filter, List.mem_range]
  · exact List.Pairwise.sublist (List.filter_sublist _) (List.pairwise_lt_range _)
  · intro w hw
    refine ⟨GetOrCreateOffsetCache_eq w s hw, ?_⟩
    intro L
    rw [getPointerForLineNumber_eq_spec64 s h L]
    exact specialized_width_irrelevant w 64 s hw h L

/-- Witness for C1 at the concrete buffer `aa`, newline, `bb`, newline, `cc`
(specification scenario 6): line 2 starts one byte past the first newline. -/
theorem C1_getPointerForLineNumber_correct_witness :
    getPointerForLineNumber ['a', 'a', '\n', 'b', 'b', '\n', 'c', 'c'] 2 = some 3 := by
  have h := (C1_getPointerForLineNumber_correct
    ['a', 'a', '\n', 'b', 'b', '\n', 'c', 'c'] (by decide)).2.1 2 (by decide) (by decide)
  rw [h]
  decide
